import Mathlib

/-!
Verification development for the Fuzzy chat-widget message pipeline.

The definitions below are a shallow embedding of the chat widget code:
the message store, chat session, status state machine, the streamed
`sendMessage` operation, the `clearChat` operation, and the response
directive parser (`renderMessageContent`: booking-completion tag
stripping via a brace-depth scan, and `TIME_SLOTS_DISPLAY` pseudo-JSON
list extraction).  Text is modelled as `List Char`; machine-level
concerns (DOM, timers, network) appear as explicit inputs.
-/

namespace FuzzyChat

/-- Characters that the JavaScript `trim` removes (the ones relevant here). -/
def isWS (c : Char) : Bool :=
  c = ' ' || c = '\n' || c = '\t' || c = '\r'

/-- Model of JavaScript `String.prototype.trim`. -/
def trimStr (s : List Char) : List Char :=
  ((s.dropWhile isWS).reverse.dropWhile isWS).reverse

/-- Lower-casing used to model the case-insensitive `i` regex flag. -/
def lowerStr (s : List Char) : List Char :=
  s.map Char.toLower

/-- Index of the first occurrence of character `c`, as in `indexOf` restricted
to a single character. -/
def indexOfChar (c : Char) : List Char → Option Nat
  | [] => none
  | d :: rest => if d = c then some 0 else (indexOfChar c rest).map (· + 1)

/-- Index of the first occurrence of `needle` as a contiguous substring of
`hay`; model of `String.prototype.indexOf`. -/
def indexOfSub (needle : List Char) : List Char → Option Nat
  | [] => if needle = [] then some 0 else none
  | c :: rest =>
    if needle.isPrefixOf (c :: rest) then some 0
    else (indexOfSub needle rest).map (· + 1)

/-- Model of `String.prototype.includes`. -/
def containsSub (needle hay : List Char) : Bool :=
  (indexOfSub needle hay).isSome

/-- Model of `String.prototype.replace` with a plain-string pattern:
replaces the first occurrence only. -/
def replaceFirst (needle repl s : List Char) : List Char :=
  match indexOfSub needle s with
  | none => s
  | some i => s.take i ++ repl ++ s.drop (i + needle.length)

/-- The opening brace character, spelled via its code point. -/
def lbrace : Char := Char.ofNat 123

/-- The closing brace character, spelled via its code point. -/
def rbrace : Char := Char.ofNat 125

/-- The double-quote character, spelled via its code point. -/
def dquote : Char := Char.ofNat 34

/-- The single-quote character, spelled via its code point. -/
def squote : Char := Char.ofNat 39

/-- The backslash character, spelled via its code point. -/
def bslash : Char := Char.ofNat 92

/-- The underscore character. -/
def uscore : Char := Char.ofNat 95

/-- Decimal digits of a natural number, used to model JavaScript template
interpolation of numbers into strings. -/
def natChars (n : Nat) : List Char :=
  Nat.toDigits 10 n

/-- Message sender, from the `Message` interface. -/
inductive Sender where
  | user
  | bot
deriving DecidableEq, Repr

/-- A chat message record (`Message` interface).  The random message id is
modelled by a natural number drawn from a counter; the wall-clock timestamp
is irrelevant to every claim and omitted. -/
structure Message where
  id : Nat
  sender : Sender
  text : List Char
  isError : Bool
deriving DecidableEq, Repr

/-- The chat session (`ChatSession` interface). -/
structure ChatSession where
  sessionId : List Char
  isBookingConfirmed : Bool
deriving DecidableEq, Repr

/-- The chat status enumeration (`ChatStatus` type). -/
inductive ChatStatus where
  | idle
  | typing
  | connecting
  | error
deriving DecidableEq, Repr

/-- The widget state that the claims refer to (messages, input, status,
session, retry counter), plus the id counter modelling the message-id
generator. -/
structure ChatState where
  messages : List Message
  input : List Char
  chatStatus : ChatStatus
  session : ChatSession
  retryCount : Nat
  nextId : Nat
deriving DecidableEq, Repr

/-- The `BOOKING_COMPLETE:` directive tag. -/
def bkTag : List Char := "BOOKING_COMPLETE:".data

/-- The `UPDATE_COMPLETE:` directive tag. -/
def upTag : List Char := "UPDATE_COMPLETE:".data

/-- Brace-depth scan from `renderMessageContent`: starting at a position
inside the text, walk forward maintaining a brace counter; when the counter
returns to zero after a closing brace, report how many characters were
consumed (the JSON end, relative to the scan start).  The depth is an `Int`
because the JavaScript counter may go negative. -/
def braceEnd : List Char → Int → Nat → Option Nat
  | [], _, _ => none
  | c :: rest, depth, k =>
    if c = lbrace then braceEnd rest (depth + 1) (k + 1)
    else if c = rbrace then
      if depth = 1 then some (k + 1) else braceEnd rest (depth - 1) (k + 1)
    else braceEnd rest depth (k + 1)

/-- One pass of the completion-tag stripping loop in `renderMessageContent`:
find the tag, trim the text before it, locate the brace-balanced JSON blob
after it, and join the trimmed pre-text with a space and the trimmed
post-JSON text, trimming the result. -/
def stripCompleteTag (tag s : List Char) : List Char :=
  match indexOfSub tag s with
  | none => s
  | some ti =>
    let pre := trimStr (s.take ti)
    let post :=
      match (indexOfChar lbrace (s.drop ti)).map (· + ti) with
      | none => []
      | some js =>
        match braceEnd (s.drop js) 0 0 with
        | none => []
        | some len => trimStr (s.drop (js + len))
    trimStr (pre ++ ' ' :: post)

/-- The completion-tag stripping stage of `renderMessageContent`: the
`forEach` over `[bookingCompleteTag, updateCompleteTag]`. -/
def renderStrip (s : List Char) : List Char :=
  stripCompleteTag upTag (stripCompleteTag bkTag s)

/-- The literal part of the `TIME_SLOTS_DISPLAY:\[` regex. -/
def tsMarker : List Char := "TIME_SLOTS_DISPLAY:[".data

/-- Lazy `(.*?)\]` matching after the marker: take characters up to the
first closing bracket; fail if a newline intervenes or no bracket exists
(the regex dot does not match a line terminator). -/
def takeToBracket : List Char → Option (List Char × List Char)
  | [] => none
  | c :: rest =>
    if c = ']' then some ([], rest)
    else if c = '\n' then none
    else (takeToBracket rest).map (fun p => (c :: p.1, p.2))

/-- Leftmost match of the `TIME_SLOTS_DISPLAY:\[(.*?)\]` regex: returns the
text before the match, the captured group, and the text after the match. -/
def tsScan : List Char → Option (List Char × List Char × List Char)
  | [] => none
  | c :: rest =>
    if tsMarker.isPrefixOf (c :: rest) then
      match takeToBracket ((c :: rest).drop tsMarker.length) with
      | some p => some ([], p.1, p.2)
      | none => (tsScan rest).map (fun t => (c :: t.1, t.2.1, t.2.2))
    else (tsScan rest).map (fun t => (c :: t.1, t.2.1, t.2.2))

/-- Quote normalization from `renderMessageContent`:
`replace(/'/g, '"')` applied to the captured group. -/
def normalizeQuotes (s : List Char) : List Char :=
  s.map (fun c => if c = squote then dquote else c)

/-- JSON whitespace accepted by `JSON.parse`. -/
def isJsonWS (c : Char) : Bool :=
  c = ' ' || c = '\t' || c = '\n' || c = '\r'

/-- Skip JSON whitespace. -/
def skipWS (s : List Char) : List Char :=
  s.dropWhile isJsonWS

/-- Scan the body of a JSON string literal (opening quote already
consumed).  Models `JSON.parse` on the fragment of JSON the time-slot
payload uses: strings without escape sequences or control characters. -/
def scanStr : List Char → Option (List Char × List Char)
  | [] => none
  | c :: rest =>
    if c = dquote then some ([], rest)
    else if c = bslash then none
    else if c.toNat < 32 then none
    else (scanStr rest).map (fun p => (c :: p.1, p.2))

/-- Parse one JSON string literal. -/
def parseStringLit (s : List Char) : Option (List Char × List Char) :=
  match s with
  | c :: rest => if c = dquote then scanStr rest else none
  | [] => none

/-- Parse a comma-separated sequence of JSON string literals terminated by
a closing bracket and end of input (the characters after `[`).  The fuel
argument only serves termination; it is always supplied with at least the
input length. -/
def parseItemsAux : Nat → List Char → Option (List (List Char))
  | 0, _ => none
  | fuel + 1, s =>
    match parseStringLit (skipWS s) with
    | none => none
    | some (item, rest) =>
      match skipWS rest with
      | c :: tail =>
        if c = ']' then
          if skipWS tail = [] then some [item] else none
        else if c = ',' then
          (parseItemsAux fuel tail).map (item :: ·)
        else none
      | [] => none

/-- Model of `JSON.parse` on an array of plain strings, the shape the
time-slot payload takes after quote normalization.  Anything outside that
shape (escapes, non-string items, trailing garbage) is a parse failure,
matching the `catch` branch in the code. -/
def parseStringArray (s : List Char) : Option (List (List Char)) :=
  match skipWS s with
  | c :: rest =>
    if c = '[' then
      match skipWS rest with
      | d :: tail =>
        if d = ']' then
          if skipWS tail = [] then some [] else none
        else parseItemsAux (rest.length + 1) rest
      | [] => none
    else none
  | [] => none

/-- The time-slot stage of `renderMessageContent`: match the
`TIME_SLOTS_DISPLAY` regex, normalize quotes, `JSON.parse` the bracketed
list; on success remove the whole matched marker from the text and trim,
on failure (or no match) leave the text alone and render no slots. -/
def extractTimeSlots (s : List Char) : List (List Char) × List Char :=
  match tsScan s with
  | none => ([], s)
  | some (_, content, _) =>
    match parseStringArray ('[' :: normalizeQuotes content ++ [']']) with
    | none => ([], s)
    | some slots =>
      (slots, trimStr (replaceFirst (tsMarker ++ content ++ [']']) [] s))

/-- Encoder describing the single-quoted pseudo-JSON list shape the claim
speaks about: items joined by commas, each wrapped in single quotes. -/
def quoteList (items : List (List Char)) : List Char :=
  match items with
  | [] => []
  | [i] => squote :: i ++ [squote]
  | i :: rest => squote :: i ++ squote :: ',' :: quoteList rest

/-- The same list with double quotes, the image of `quoteList` under
`normalizeQuotes` when the items are quote-free. -/
def dquoteList (items : List (List Char)) : List Char :=
  match items with
  | [] => []
  | [i] => dquote :: i ++ [dquote]
  | i :: rest => dquote :: i ++ dquote :: ',' :: dquoteList rest

/-- Characters a time-slot item may contain for the parse to succeed: no
quotes of either kind, no backslash, no closing bracket, no newline, no
control characters. -/
def plainItem (i : List Char) : Prop :=
  squote ∉ i ∧ dquote ∉ i ∧ bslash ∉ i ∧ ']' ∉ i ∧ '\n' ∉ i ∧
    ∀ c ∈ i, 32 ≤ c.toNat

instance (i : List Char) : Decidable (plainItem i) := by
  unfold plainItem
  infer_instance

/-- First booking-confirmation phrase checked on the final chunk. -/
def bookingPhrase1 : List Char :=
  "Your appointment request has been submitted successfully!".data

/-- Second booking-confirmation phrase checked on the final chunk. -/
def bookingPhrase2 : List Char :=
  "Perfect! Your appointment timing has been updated successfully!".data

/-- Intent word `change` of the reschedule/cancel regex. -/
def intentChange : List Char := "change".data

/-- Intent word `update` of the reschedule/cancel regex. -/
def intentUpdate : List Char := "update".data

/-- Intent word `reschedule` of the reschedule/cancel regex. -/
def intentReschedule : List Char := "reschedule".data

/-- Intent word `modify` of the reschedule/cancel regex. -/
def intentModify : List Char := "modify".data

/-- Model of `/change|update|reschedule|modify/i.test(text)`: case-insensitive
substring search for any of the four alternatives. -/
def intentTest (t : List Char) : Bool :=
  containsSub intentChange (lowerStr t) || containsSub intentUpdate (lowerStr t) ||
    containsSub intentReschedule (lowerStr t) || containsSub intentModify (lowerStr t)

/-- The welcome message text shown at widget open and after clear chat. -/
def welcomeText : List Char :=
  ("Hello! I\x27m **Fuzzy**, your friendly AI assistant from **Fuzionest**. 👋\nI\x27m here to help you:\n- Learn about our innovative services\n- Book consultations with our expert team\n\nHow can I assist you today?").data

/-- The message text carried by a rejected `fetch` on connectivity failure. -/
def failedFetchMsg : List Char := "Failed to fetch".data

/-- The message text of the error thrown on a non-2xx HTTP response. -/
def httpErrorMsg (status : Nat) : List Char :=
  "HTTP error! status: ".data ++ natChars status

/-- The message text of the error thrown when the response has no readable
body stream. -/
def noBodyMsg : List Char := "Failed to get readable stream".data

/-- Contextual connection-issue copy from `getErrorMessage`. -/
def connectionCopy (retryCount : Nat) : List Char :=
  ("🔌 **Connection Issue**\n\nI\x27m having trouble connecting to our servers. Please check your internet connection and try again.\n\n").data ++
    (if retryCount < 2 then
      ("🔄 You can also try sending your message again.").data
     else
      ("📞 If the issue persists, please contact our support team.").data)

/-- Contextual server-error copy from `getErrorMessage`. -/
def serverCopy : List Char :=
  ("⚠ **Server Error**\n\nOur servers are experiencing some issues. Please try again in a moment.\n\n📞 For urgent matters, contact us directly at: **+1 (555) 123-4567**").data

/-- Generic failure copy from `getErrorMessage`. -/
def genericCopy : List Char :=
  ("😔 **Oops! Something went wrong**\n\nI apologize for the technical difficulty. Please try again or contact our team directly.\n\n📧 **Email:** info@fuzionest.com\n📞 **Phone:** +1 (555) 123-4567").data

/-- Model of `getErrorMessage`: select contextual copy from the thrown
error message. -/
def getErrorMessage (emsg : List Char) (retryCount : Nat) : List Char :=
  if containsSub failedFetchMsg emsg then connectionCopy retryCount
  else if containsSub ("500".data) emsg then serverCopy
  else genericCopy

/-- One parsed streamed JSON object (`{response_chunk?, is_final?,
session_id?, error?}`).  `some []` models a present-but-empty (falsy)
string field. -/
structure ChunkData where
  response_chunk : Option (List Char)
  is_final : Bool
  session_id : Option (List Char)
  error : Option (List Char)
deriving DecidableEq, Repr

/-- A newline-delimited line of the streamed body: either a JSON object
that parses, or a malformed line on which `JSON.parse` throws. -/
inductive StreamLine where
  | parsed (d : ChunkData)
  | malformed
deriving DecidableEq, Repr

/-- What the transport does for one send: reject at fetch time, report a
non-2xx status, yield no readable body, or stream reads (each read holding
the parsed lines of one decoded chunk), possibly ending in an abort. -/
inductive TransportResult where
  | networkFailure
  | httpError (status : Nat)
  | noBody
  | abortedBeforeResponse
  | stream (reads : List (List StreamLine)) (abortedAfter : Bool)
deriving DecidableEq, Repr

/-- The thrown error message for the three failure outcomes (unused for
the others). -/
def transportErrMsg : TransportResult → List Char
  | .networkFailure => failedFetchMsg
  | .httpError status => httpErrorMsg status
  | .noBody => noBodyMsg
  | _ => []

/-- The accumulator of the streamed-read loop: the local
`botMessageText`, plus the message list and session as mutated so far,
and the `isStreamComplete` flag. -/
structure StreamAcc where
  botMessageText : List Char
  messages : List Message
  session : ChatSession
  isStreamComplete : Bool
deriving DecidableEq, Repr

/-- The in-place update of the trailing bot message used while streaming:
copy the list and overwrite the last element's text when its sender is
`bot`. -/
def updateLastBot (ms : List Message) (t : List Char) : List Message :=
  match ms.getLast? with
  | none => ms
  | some m =>
    if m.sender = Sender.bot then ms.dropLast ++ [{ m with text := t }] else ms

/-- The `if (data.response_chunk)` step of the per-line `try` body: a
truthy chunk extends the accumulated text and overwrites the trailing bot
message. -/
def stepRC (acc : StreamAcc) (d : ChunkData) : StreamAcc :=
  match d.response_chunk with
  | some rc =>
    if rc ≠ [] then
      { acc with
          botMessageText := acc.botMessageText ++ rc
          messages := updateLastBot acc.messages (acc.botMessageText ++ rc) }
    else acc
  | none => acc

/-- The `if (data.is_final)` step: mark the stream complete and run the
booking-phrase check on the accumulated text. -/
def stepFinal (acc : StreamAcc) (d : ChunkData) : StreamAcc :=
  if d.is_final then
    { acc with
        isStreamComplete := true
        session :=
          if containsSub bookingPhrase1 acc.botMessageText ||
              containsSub bookingPhrase2 acc.botMessageText then
            { acc.session with isBookingConfirmed := true }
          else acc.session }
  else acc

/-- The `if (data.session_id)` step: overwrite the session id with a
truthy backend-echoed value. -/
def stepSID (acc : StreamAcc) (d : ChunkData) : StreamAcc :=
  match d.session_id with
  | some sid =>
    if sid ≠ [] then { acc with session := { acc.session with sessionId := sid } }
    else acc
  | none => acc

/-- Processing of one successfully parsed chunk object, translating the
body of the per-line `try`: the `response_chunk` append runs first, then
the `is_final` handling with the booking-phrase check on the updated
text, then the `session_id` overwrite.  A present `error` field throws,
but the throw is caught by the same per-line `catch` as a JSON parse
error, so it leaves no trace in the state. -/
def processParsed (acc : StreamAcc) (d : ChunkData) : StreamAcc :=
  stepSID (stepFinal (stepRC acc d) d) d

/-- Processing of one line: malformed lines are logged and skipped. -/
def processLine (acc : StreamAcc) (l : StreamLine) : StreamAcc :=
  match l with
  | .malformed => acc
  | .parsed d => processParsed acc d

/-- Processing of one decoded read: every line of the read is handled. -/
def processRead (acc : StreamAcc) (lines : List StreamLine) : StreamAcc :=
  lines.foldl processLine acc

/-- The `while (!isStreamComplete)` read loop: stop before a read once the
final chunk was seen. -/
def processReads (acc : StreamAcc) : List (List StreamLine) → StreamAcc
  | [] => acc
  | r :: rs =>
    if acc.isStreamComplete then acc else processReads (processRead acc r) rs

/-- The session value computed before the request is issued: the
reschedule/cancel intent check resets `isBookingConfirmed` when it was
set. -/
def preSendSession (s : ChatState) (text : List Char) : ChatSession :=
  if s.session.isBookingConfirmed ∧ intentTest text then
    { s.session with isBookingConfirmed := false }
  else s.session

/-- The state after the synchronous prefix of `sendMessage` (guard already
passed): intent reset, user message append, input clear, status `typing`. -/
def sendStartState (s : ChatState) (text : List Char) : ChatState :=
  { messages := s.messages ++
      [{ id := s.nextId, sender := Sender.user, text := trimStr text, isError := false }]
    input := []
    chatStatus := ChatStatus.typing
    session := preSendSession s text
    retryCount := s.retryCount
    nextId := s.nextId + 1 }

/-- The full `sendMessage` operation of the streaming iteration, as a
function of the transport's behaviour.  Returns the final state and the
sequence of values assigned to `chatStatus` during the call.  The guard
returns unchanged state; failures append a bot-styled error message, bump
the retry counter and pass through status `error`; an `AbortError` is
silently dropped; the `finally` block always ends at status `idle`. -/
def sendMessage (s : ChatState) (text : List Char) (isRetry : Bool)
    (tr : TransportResult) : ChatState × List ChatStatus :=
  if trimStr text = [] ∨ s.chatStatus = ChatStatus.typing then (s, [])
  else
    let s1 := sendStartState s text
    match tr with
    | .abortedBeforeResponse =>
      ({ s1 with chatStatus := ChatStatus.idle },
        [ChatStatus.typing, ChatStatus.idle])
    | .stream reads abortedAfter =>
      let tempBot : Message :=
        { id := s1.nextId, sender := Sender.bot, text := [], isError := false }
      let s2 := { s1 with messages := s1.messages ++ [tempBot], nextId := s1.nextId + 1 }
      let acc := processReads
        { botMessageText := []
          messages := s2.messages
          session := s2.session
          isStreamComplete := false } reads
      if abortedAfter then
        ({ s2 with
            messages := acc.messages
            session := acc.session
            chatStatus := ChatStatus.idle },
          [ChatStatus.typing, ChatStatus.idle])
      else
        ({ s2 with
            messages := acc.messages
            session := acc.session
            retryCount := 0
            chatStatus := ChatStatus.idle },
          [ChatStatus.typing, ChatStatus.idle])
    | tr =>
      let em : Message :=
        { id := s1.nextId
          sender := Sender.bot
          text := getErrorMessage (transportErrMsg tr) s.retryCount
          isError := true }
      ({ s1 with
          messages := s1.messages ++ [em]
          nextId := s1.nextId + 1
          retryCount := if s.retryCount < 2 ∧ ¬ isRetry then s.retryCount + 1 else s.retryCount
          chatStatus := ChatStatus.idle },
        [ChatStatus.typing, ChatStatus.error, ChatStatus.idle])

/-- The per-chunk update of the replacement iteration (`page.tsx`): a
truthy `response_chunk` replaces the accumulated text and rewrites the
message carrying the remembered temp id. -/
def pageApplyChunk (botText : List Char) (msgs : List Message) (tempId : Nat)
    (d : ChunkData) : List Char × List Message :=
  match d.response_chunk with
  | some rc =>
    if rc ≠ [] then
      (rc, msgs.map (fun m => if m.id = tempId then { m with text := rc } else m))
    else (botText, msgs)
  | none => (botText, msgs)

/-- The session-id generator: `'session_' + random36 + '_' + Date.now()`.
The random component and the rendered clock value are inputs from the
environment. -/
def generateSessionId (rand time : List Char) : List Char :=
  "session".data ++ uscore :: rand ++ uscore :: time

/-- The synchronous part of `clearChat`: abort any in-flight request (see
the trace model), clear the message list, install a fresh session with
`isBookingConfirmed` false, reset status and retry counter. -/
def clearChatNow (s : ChatState) (rand time : List Char) : ChatState :=
  { messages := []
    input := s.input
    chatStatus := ChatStatus.idle
    session := { sessionId := generateSessionId rand time, isBookingConfirmed := false }
    retryCount := 0
    nextId := s.nextId }

/-- The deferred tail of `clearChat` (the 200 ms timeout): install the
single welcome message. -/
def clearChatWelcome (s : ChatState) : ChatState :=
  { s with
      messages := [{ id := s.nextId, sender := Sender.bot, text := welcomeText, isError := false }]
      nextId := s.nextId + 1 }

/-- The complete `clearChat` operation, timeout included. -/
def clearChat (s : ChatState) (rand time : List Char) : ChatState :=
  clearChatWelcome (clearChatNow s rand time)

/-! ## Trace model of concurrent sends

The abort discipline (claim about superseded requests) is about several
overlapping `sendMessage` calls, so it is modelled as a small-step system.
Each send is a generation numbered by a counter (one per `AbortController`).
The platform facts encoded in the step guards are: an aborted reader
delivers no further chunks, and the microtask continuations of an aborted
or completed send (its `catch`/`finally`) run before the next user event
or network event (`drained`). -/

/-- A message tagged with the generation of the send that created it
(`none` for the welcome message). -/
structure GMsg where
  gen : Option Nat
  sender : Sender
  text : List Char
deriving DecidableEq, Repr

/-- The trace-model state: the generation counter, the
`abortControllerRef` content, the sets of aborted / stream-begun /
finished / started generations, the chat status and the message list. -/
structure TState where
  counter : Nat
  refCtrl : Option Nat
  aborted : List Nat
  begun : List Nat
  finished : List Nat
  started : List Nat
  status : ChatStatus
  messages : List GMsg
deriving DecidableEq, Repr

/-- Generation `g` is in flight: started but neither aborted nor
finished. -/
def TState.live (s : TState) (g : Nat) : Prop :=
  g ∈ s.started ∧ g ∉ s.aborted ∧ g ∉ s.finished

/-- All aborted sends have run their `finally` continuation; holds
whenever a new task (user event, network data) begins. -/
def TState.drained (s : TState) : Prop :=
  ∀ g ∈ s.aborted, g ∈ s.finished

instance (s : TState) : Decidable s.drained := by
  unfold TState.drained
  infer_instance

instance (s : TState) (g : Nat) : Decidable (s.live g) := by
  unfold TState.live
  infer_instance

/-- Abort the controller currently held by `abortControllerRef`, if any. -/
def abortRef (s : TState) : TState :=
  match s.refCtrl with
  | some h => { s with aborted := h :: s.aborted }
  | none => s

/-- The streaming last-message mutation in the trace model: overwrite the
trailing message's text when its sender is `bot` (the generation-blind
last-index update of the streaming iteration). -/
def gUpdateLast (ms : List GMsg) (t : List Char) : List GMsg :=
  match ms.getLast? with
  | none => ms
  | some m =>
    if m.sender = Sender.bot then ms.dropLast ++ [{ m with text := t }] else ms

/-- The events of the trace model. -/
inductive Ev where
  | sendStart (txt : List Char)
  | streamBegin (g : Nat)
  | chunk (g : Nat) (t : List Char)
  | finishOk (g : Nat)
  | finishAbort (g : Nat)
  | clearChat
  | welcomeTimeout
deriving DecidableEq, Repr

/-- The labelled step relation.  `sendStart` is the synchronous prefix of
`sendMessage` (guard, abort of the previous controller, fresh controller,
user-message append, status `typing`).  `streamBegin` is the arrival of
the response (temp bot message append).  `chunk` is the arrival of one
streamed chunk, possible only while the generation's reader is not
aborted.  `finishOk`/`finishAbort` are the `finally` block (status `idle`,
reference cleared).  `clearChat` aborts the current controller and clears
the message list; `welcomeTimeout` is its deferred welcome append. -/
inductive TStep : TState → Ev → TState → Prop where
  | sendStart (s : TState) (txt : List Char) :
      trimStr txt ≠ [] → s.status ≠ ChatStatus.typing → s.drained →
      TStep s (Ev.sendStart txt)
        { abortRef s with
            refCtrl := some s.counter
            counter := s.counter + 1
            started := s.counter :: s.started
            status := ChatStatus.typing
            messages := s.messages ++
              [{ gen := some s.counter, sender := Sender.user, text := trimStr txt }] }
  | streamBegin (s : TState) (g : Nat) :
      g ∈ s.started → g ∉ s.aborted → g ∉ s.begun → g ∉ s.finished → s.drained →
      TStep s (Ev.streamBegin g)
        { s with
            begun := g :: s.begun
            messages := s.messages ++ [{ gen := some g, sender := Sender.bot, text := [] }] }
  | chunk (s : TState) (g : Nat) (t : List Char) :
      g ∈ s.begun → g ∉ s.aborted → g ∉ s.finished → s.drained →
      TStep s (Ev.chunk g t) { s with messages := gUpdateLast s.messages t }
  | finishOk (s : TState) (g : Nat) :
      g ∈ s.begun → g ∉ s.aborted → g ∉ s.finished → s.drained →
      TStep s (Ev.finishOk g)
        { s with
            finished := g :: s.finished
            status := ChatStatus.idle
            refCtrl := none }
  | finishAbort (s : TState) (g : Nat) :
      g ∈ s.started → g ∈ s.aborted → g ∉ s.finished →
      TStep s (Ev.finishAbort g)
        { s with
            finished := g :: s.finished
            status := ChatStatus.idle
            refCtrl := none }
  | clearChat (s : TState) :
      s.drained →
      TStep s Ev.clearChat
        { abortRef s with messages := [], status := ChatStatus.idle }
  | welcomeTimeout (s : TState) :
      s.drained →
      TStep s Ev.welcomeTimeout
        { s with messages := [{ gen := none, sender := Sender.bot, text := welcomeText }] }

/-- The widget-mount state of the trace model. -/
def initTState : TState :=
  { counter := 0
    refCtrl := none
    aborted := []
    begun := []
    finished := []
    started := []
    status := ChatStatus.idle
    messages := [] }

/-- Reachability from the mount state by trace-model steps. -/
inductive TReach : TState → Prop where
  | init : TReach initTState
  | step {s s' : TState} (e : Ev) : TReach s → TStep s e s' → TReach s'

/-- The inductive invariant of the trace model: the reference always holds
a started, unfinished generation; an in-flight generation owns the
reference, forces status `typing` and dominates every started generation;
an aborted-but-unfinished generation excludes any in-flight one; and the
bookkeeping sets are consistent with the counter. -/
def TInv (s : TState) : Prop :=
  (∀ g, s.refCtrl = some g → g ∈ s.started ∧ g ∉ s.finished) ∧
  (∀ g, s.live g → s.refCtrl = some g ∧ s.status = ChatStatus.typing ∧
      ∀ h ∈ s.started, h ≤ g) ∧
  (∀ h ∈ s.aborted, h ∉ s.finished → ∀ g, ¬ s.live g) ∧
  (∀ g ∈ s.started, g < s.counter) ∧
  (∀ g ∈ s.aborted, g ∈ s.started) ∧
  (∀ g ∈ s.begun, g ∈ s.started) ∧
  (∀ g ∈ s.finished, g ∈ s.started)

/-- Shape predicate for the streaming accumulator: the message list is a
fixed prefix followed by a single trailing bot message with the given id
and no error flag. -/
def accShape (P : List Message) (i : Nat) (acc : StreamAcc) : Prop :=
  ∃ b : Message,
    acc.messages = P ++ [b] ∧ b.sender = Sender.bot ∧ b.isError = false ∧ b.id = i

/-- A small concrete widget state used to exercise the theorems. -/
def demoState : ChatState :=
  { messages := []
    input := []
    chatStatus := ChatStatus.idle
    session := { sessionId := ['s'], isBookingConfirmed := false }
    retryCount := 0
    nextId := 0 }

/-- A concrete input text. -/
def demoText : List Char := "hi".data

/-- A streamed chunk whose JSON object carries an `error` field. -/
def errChunk : ChunkData :=
  { response_chunk := none, is_final := false, session_id := none, error := some "boom".data }

/-- A final streamed chunk carrying ordinary text. -/
def finChunk : ChunkData :=
  { response_chunk := some "Hi".data, is_final := true, session_id := none, error := none }

/-- A final streamed chunk whose accumulated text contains the
booking-confirmation phrase. -/
def confirmChunk : ChunkData :=
  { response_chunk := some bookingPhrase1
    is_final := true
    session_id := none
    error := none }

/-- Trace-model state after one send has started from the mount state. -/
def demoT1 : TState :=
  { counter := 1
    refCtrl := some 0
    aborted := []
    begun := []
    finished := []
    started := [0]
    status := ChatStatus.typing
    messages := [{ gen := some 0, sender := Sender.user, text := demoText }] }

/-- Trace-model state after the response for that send arrived. -/
def demoT2 : TState :=
  { demoT1 with
      begun := [0]
      messages := demoT1.messages ++ [{ gen := some 0, sender := Sender.bot, text := [] }] }

/-- The concrete text of the booking-completion example: the tag, a
one-field JSON object, and a trailing phrase. -/
def bkExample : List Char :=
  bkTag ++ lbrace :: dquote :: 'x' :: dquote :: ':' :: '1' :: rbrace :: ' ' :: "thanks!".data

/-- The concrete text of the time-slot example:
the marker with the single-quoted list of `10am` and `2pm`. -/
def tsExample : List Char :=
  tsMarker ++ quoteList [("10am").data, ("2pm").data] ++ [']']

/-! ## Helper lemmas -/

theorem updateLastBot_concat_bot (P : List Message) (b : Message)
    (hb : b.sender = Sender.bot) (t : List Char) :
    updateLastBot (P ++ [b]) t = P ++ [{ b with text := t }] := by
  unfold updateLastBot
  rw [List.getLast?_concat]
  simp [hb, List.dropLast_concat]

theorem updateLastBot_cases (ms : List Message) (t : List Char) :
    updateLastBot ms t = ms ∨
      ∃ P b, ms = P ++ [b] ∧ b.sender = Sender.bot ∧
        updateLastBot ms t = P ++ [{ b with text := t }] := by
  unfold updateLastBot
  cases hl : ms.getLast? with
  | none => exact Or.inl rfl
  | some m =>
    by_cases hb : m.sender = Sender.bot
    · refine Or.inr ⟨ms.dropLast, m, ?_, hb, ?_⟩
      · exact (List.dropLast_append_getLast? m hl).symm
      · simp [hb]
    · simp [hb]

theorem countP_isError_concat (P : List Message) (b : Message) :
    (P ++ [b]).countP (fun m => m.isError) =
      P.countP (fun m => m.isError) + (if b.isError then 1 else 0) := by
  simp [List.countP_append, List.countP_cons]

theorem updateLastBot_countP_isError (ms : List Message) (t : List Char) :
    (updateLastBot ms t).countP (fun m => m.isError) =
      ms.countP (fun m => m.isError) := by
  rcases updateLastBot_cases ms t with h | ⟨P, b, hms, _, h⟩
  · rw [h]
  · rw [h, hms, countP_isError_concat, countP_isError_concat]

theorem stepFinal_messages (acc : StreamAcc) (d : ChunkData) :
    (stepFinal acc d).messages = acc.messages := by
  unfold stepFinal
  split <;> rfl

theorem stepSID_messages (acc : StreamAcc) (d : ChunkData) :
    (stepSID acc d).messages = acc.messages := by
  unfold stepSID
  cases d.session_id with
  | none => rfl
  | some sid => by_cases h : sid ≠ [] <;> simp [h]

theorem stepFinal_botText (acc : StreamAcc) (d : ChunkData) :
    (stepFinal acc d).botMessageText = acc.botMessageText := by
  unfold stepFinal
  split <;> rfl

theorem stepSID_botText (acc : StreamAcc) (d : ChunkData) :
    (stepSID acc d).botMessageText = acc.botMessageText := by
  unfold stepSID
  cases d.session_id with
  | none => rfl
  | some sid => by_cases h : sid ≠ [] <;> simp [h]

theorem stepSID_confirmed (acc : StreamAcc) (d : ChunkData) :
    (stepSID acc d).session.isBookingConfirmed = acc.session.isBookingConfirmed := by
  unfold stepSID
  cases d.session_id with
  | none => rfl
  | some sid => by_cases h : sid ≠ [] <;> simp [h]

theorem stepRC_session (acc : StreamAcc) (d : ChunkData) :
    (stepRC acc d).session = acc.session := by
  unfold stepRC
  cases d.response_chunk with
  | none => rfl
  | some rc => by_cases h : rc ≠ [] <;> simp [h]

theorem processParsed_messages_eq (acc : StreamAcc) (d : ChunkData) :
    (processParsed acc d).messages = (stepRC acc d).messages := by
  unfold processParsed
  rw [stepSID_messages, stepFinal_messages]

theorem processParsed_botText_eq (acc : StreamAcc) (d : ChunkData) :
    (processParsed acc d).botMessageText = (stepRC acc d).botMessageText := by
  unfold processParsed
  rw [stepSID_botText, stepFinal_botText]

theorem stepRC_messages_cases (acc : StreamAcc) (d : ChunkData) :
    (stepRC acc d).messages = acc.messages ∨
      ∃ t, (stepRC acc d).messages = updateLastBot acc.messages t := by
  unfold stepRC
  cases d.response_chunk with
  | none => exact Or.inl rfl
  | some rc =>
    by_cases h : rc = []
    · simp [h]
    · exact Or.inr ⟨acc.botMessageText ++ rc, by simp [h]⟩

theorem accShape_processLine (P : List Message) (i : Nat) (acc : StreamAcc)
    (l : StreamLine) (h : accShape P i acc) : accShape P i (processLine acc l) := by
  cases l with
  | malformed => exact h
  | parsed d =>
    obtain ⟨b, hm, hs, he, hi⟩ := h
    show accShape P i (processParsed acc d)
    rcases stepRC_messages_cases acc d with hc | ⟨t, hc⟩
    · exact ⟨b, by rw [processParsed_messages_eq, hc, hm], hs, he, hi⟩
    · refine ⟨{ b with text := t }, ?_, hs, he, hi⟩
      rw [processParsed_messages_eq, hc, hm, updateLastBot_concat_bot P b hs t]

theorem accShape_processRead (P : List Message) (i : Nat) (acc : StreamAcc)
    (lines : List StreamLine) (h : accShape P i acc) :
    accShape P i (processRead acc lines) := by
  unfold processRead
  induction lines generalizing acc with
  | nil => exact h
  | cons l ls ih =>
    rw [List.foldl_cons]
    exact ih _ (accShape_processLine P i acc l h)

theorem accShape_processReads (P : List Message) (i : Nat)
    (reads : List (List StreamLine)) (acc : StreamAcc) (h : accShape P i acc) :
    accShape P i (processReads acc reads) := by
  induction reads generalizing acc with
  | nil => exact h
  | cons r rs ih =>
    unfold processReads
    split
    · exact h
    · exact ih _ (accShape_processRead P i acc r h)

theorem processLine_countP_isError (acc : StreamAcc) (l : StreamLine) :
    (processLine acc l).messages.countP (fun m => m.isError) =
      acc.messages.countP (fun m => m.isError) := by
  cases l with
  | malformed => rfl
  | parsed d =>
    show (processParsed acc d).messages.countP (fun m => m.isError) = _
    rw [processParsed_messages_eq]
    rcases stepRC_messages_cases acc d with hc | ⟨t, hc⟩
    · rw [hc]
    · rw [hc, updateLastBot_countP_isError]

theorem processRead_countP_isError (acc : StreamAcc) (lines : List StreamLine) :
    (processRead acc lines).messages.countP (fun m => m.isError) =
      acc.messages.countP (fun m => m.isError) := by
  unfold processRead
  induction lines generalizing acc with
  | nil => rfl
  | cons l ls ih =>
    rw [List.foldl_cons, ih (processLine acc l), processLine_countP_isError]

theorem processReads_countP_isError (reads : List (List StreamLine)) (acc : StreamAcc) :
    (processReads acc reads).messages.countP (fun m => m.isError) =
      acc.messages.countP (fun m => m.isError) := by
  induction reads generalizing acc with
  | nil => rfl
  | cons r rs ih =>
    unfold processReads
    split
    · rfl
    · rw [ih (processRead acc r), processRead_countP_isError]

theorem processReads_bot_tail (P : List Message) (i : Nat) (sess : ChatSession)
    (reads : List (List StreamLine)) :
    ∃ b' : Message,
      (processReads
          { botMessageText := []
            messages := P ++ [{ id := i, sender := Sender.bot, text := [], isError := false }]
            session := sess
            isStreamComplete := false } reads).messages = P ++ [b'] ∧
        b'.sender = Sender.bot := by
  obtain ⟨b, hm, hb, _, _⟩ := accShape_processReads P i reads
    { botMessageText := []
      messages := P ++ [{ id := i, sender := Sender.bot, text := [], isError := false }]
      session := sess
      isStreamComplete := false }
    ⟨{ id := i, sender := Sender.bot, text := [], isError := false }, rfl, rfl, rfl, rfl⟩
  exact ⟨b, hm, hb⟩

/-! ## Claim theorems -/

/-- C3: for every non-empty input sent while the status is not `typing`,
`sendMessage` appends exactly one user message to the message list, and
every message added after it in that exchange is a bot message; calling
`sendMessage` while the status is `typing` changes nothing and issues no
request. -/
theorem send_appends_single_user_message (s : ChatState) (text : List Char)
    (isRetry : Bool) (tr : TransportResult) :
    (trimStr text ≠ [] → s.chatStatus ≠ ChatStatus.typing →
      ∃ rest, (sendMessage s text isRetry tr).1.messages =
          s.messages ++
            { id := s.nextId, sender := Sender.user, text := trimStr text,
              isError := false } :: rest ∧
        ∀ m ∈ rest, m.sender = Sender.bot) ∧
    (s.chatStatus = ChatStatus.typing → sendMessage s text isRetry tr = (s, [])) := by
  constructor
  · intro h1 h2
    have hg : ¬ (trimStr text = [] ∨ s.chatStatus = ChatStatus.typing) := by
      rintro (h | h)
      exacts [h1 h, h2 h]
    unfold sendMessage
    rw [if_neg hg]
    cases tr with
    | abortedBeforeResponse =>
      refine ⟨[], ?_, by simp⟩
      simp [sendStartState]
    | networkFailure =>
      refine ⟨[⟨s.nextId + 1, Sender.bot,
        getErrorMessage (transportErrMsg TransportResult.networkFailure) s.retryCount,
        true⟩], ?_, ?_⟩
      · simp [sendStartState]
      · intro m hm
        rw [List.mem_singleton] at hm
        subst hm
        rfl
    | httpError n =>
      refine ⟨[⟨s.nextId + 1, Sender.bot,
        getErrorMessage (transportErrMsg (TransportResult.httpError n)) s.retryCount,
        true⟩], ?_, ?_⟩
      · simp [sendStartState]
      · intro m hm
        rw [List.mem_singleton] at hm
        subst hm
        rfl
    | noBody =>
      refine ⟨[⟨s.nextId + 1, Sender.bot,
        getErrorMessage (transportErrMsg TransportResult.noBody) s.retryCount,
        true⟩], ?_, ?_⟩
      · simp [sendStartState]
      · intro m hm
        rw [List.mem_singleton] at hm
        subst hm
        rfl
    | stream reads abortedAfter =>
      obtain ⟨b, hm, hb⟩ := processReads_bot_tail (sendStartState s text).messages
        (sendStartState s text).nextId (sendStartState s text).session reads
      cases abortedAfter with
      | false =>
        refine ⟨[b], ?_, ?_⟩
        · exact hm.trans (by simp [sendStartState])
        · intro m hmem
          rw [List.mem_singleton] at hmem
          subst hmem
          exact hb
      | true =>
        refine ⟨[b], ?_, ?_⟩
        · exact hm.trans (by simp [sendStartState])
        · intro m hmem
          rw [List.mem_singleton] at hmem
          subst hmem
          exact hb
  · intro h
    unfold sendMessage
    rw [if_pos (Or.inr h)]

/-- C3 witness: concrete instance with a network failure transport. -/
theorem send_appends_single_user_message_witness :
    ∃ rest,
      (sendMessage demoState demoText false TransportResult.networkFailure).1.messages =
        demoState.messages ++
          { id := demoState.nextId, sender := Sender.user, text := trimStr demoText,
            isError := false } :: rest ∧
      ∀ m ∈ rest, m.sender = Sender.bot :=
  (send_appends_single_user_message demoState demoText false
    TransportResult.networkFailure).1 (by decide) (by decide)

/-- C8: a send that terminates because its request was cancelled (an
`AbortError` thrown at fetch time or during the read loop) appends no
error-flagged message: the number of `isError` messages is unchanged. -/
theorem abort_no_error_message (s : ChatState) (text : List Char) (isRetry : Bool)
    (reads : List (List StreamLine)) :
    (sendMessage s text isRetry TransportResult.abortedBeforeResponse).1.messages.countP
        (fun m => m.isError) = s.messages.countP (fun m => m.isError) ∧
    (sendMessage s text isRetry (TransportResult.stream reads true)).1.messages.countP
        (fun m => m.isError) = s.messages.countP (fun m => m.isError) := by
  by_cases hg : trimStr text = [] ∨ s.chatStatus = ChatStatus.typing
  · constructor <;> (unfold sendMessage; rw [if_pos hg])
  · constructor
    · unfold sendMessage
      rw [if_neg hg]
      simp [sendStartState, List.countP_append, List.countP_cons]
    · unfold sendMessage
      rw [if_neg hg]
      show (processReads _ reads).messages.countP (fun m => m.isError) = _
      rw [processReads_countP_isError]
      simp [sendStartState, List.countP_append, List.countP_cons]

/-- C9: the status machine of a send: the guard blocks empty or
whitespace-only input and re-entrant sends; every send that passes
the guard first sets `typing`; network-level failures pass through
`error` and then `idle`; a completed stream goes straight to `idle`;
and every completed send ends with status `idle`. -/
theorem status_state_machine (s : ChatState) (text : List Char) (isRetry : Bool)
    (tr : TransportResult) :
    ((trimStr text = [] ∨ s.chatStatus = ChatStatus.typing) →
      sendMessage s text isRetry tr = (s, [])) ∧
    (trimStr text ≠ [] → s.chatStatus ≠ ChatStatus.typing →
      ((sendMessage s text isRetry tr).2 =
          [ChatStatus.typing, ChatStatus.error, ChatStatus.idle] ∨
        (sendMessage s text isRetry tr).2 = [ChatStatus.typing, ChatStatus.idle]) ∧
      ((tr = TransportResult.networkFailure ∨ (∃ n, tr = TransportResult.httpError n) ∨
          tr = TransportResult.noBody) →
        (sendMessage s text isRetry tr).2 =
          [ChatStatus.typing, ChatStatus.error, ChatStatus.idle]) ∧
      (∀ reads, tr = TransportResult.stream reads false →
        (sendMessage s text isRetry tr).2 = [ChatStatus.typing, ChatStatus.idle]) ∧
      (sendMessage s text isRetry tr).1.chatStatus = ChatStatus.idle) := by
  constructor
  · intro hg
    unfold sendMessage
    rw [if_pos hg]
  · intro h1 h2
    have hg : ¬ (trimStr text = [] ∨ s.chatStatus = ChatStatus.typing) := by
      rintro (h | h)
      exacts [h1 h, h2 h]
    unfold sendMessage
    rw [if_neg hg]
    cases tr with
    | networkFailure =>
      refine ⟨Or.inl rfl, fun _ => rfl, ?_, rfl⟩
      intro reads h
      cases h
    | httpError n =>
      refine ⟨Or.inl rfl, fun _ => rfl, ?_, rfl⟩
      intro reads h
      cases h
    | noBody =>
      refine ⟨Or.inl rfl, fun _ => rfl, ?_, rfl⟩
      intro reads h
      cases h
    | abortedBeforeResponse =>
      refine ⟨Or.inr rfl, ?_, ?_, rfl⟩
      · rintro (h | ⟨n, h⟩ | h) <;> cases h
      · intro reads h
        cases h
    | stream reads abortedAfter =>
      cases abortedAfter with
      | false =>
        refine ⟨Or.inr rfl, ?_, fun reads' h => rfl, rfl⟩
        rintro (h | ⟨n, h⟩ | h) <;> cases h
      | true =>
        refine ⟨Or.inr rfl, ?_, ?_, rfl⟩
        · rintro (h | ⟨n, h⟩ | h) <;> cases h
        · intro reads' h
          cases h

/-- C9 witness: concrete instances of the guarded-send conclusions. -/
theorem status_state_machine_witness :
    (sendMessage demoState demoText false TransportResult.networkFailure).2 =
      [ChatStatus.typing, ChatStatus.error, ChatStatus.idle] ∧
    (sendMessage demoState demoText false (TransportResult.stream [] false)).1.chatStatus =
      ChatStatus.idle :=
  ⟨((status_state_machine demoState demoText false
        TransportResult.networkFailure).2 (by decide) (by decide)).2.1
      (Or.inl rfl),
    ((status_state_machine demoState demoText false
        (TransportResult.stream [] false)).2 (by decide) (by decide)).2.2.2⟩

/-- C10: a streamed chunk whose `response_chunk` field is absent or empty
leaves the accumulated bot text and the message list unchanged, in both
the appending iteration (`processParsed`) and the replacement iteration
(`pageApplyChunk`); a present non-empty chunk extends the accumulated
text in the appending iteration and replaces it with that non-empty text
in the replacement iteration. -/
theorem empty_chunk_preserves_text (acc : StreamAcc) (d : ChunkData)
    (botText : List Char) (msgs : List Message) (tempId : Nat) :
    ((d.response_chunk = none ∨ d.response_chunk = some []) →
      (processParsed acc d).botMessageText = acc.botMessageText ∧
      (processParsed acc d).messages = acc.messages ∧
      pageApplyChunk botText msgs tempId d = (botText, msgs)) ∧
    (∀ t, d.response_chunk = some t → t ≠ [] →
      (processParsed acc d).botMessageText = acc.botMessageText ++ t ∧
      (pageApplyChunk botText msgs tempId d).1 = t) := by
  constructor
  · intro h
    rw [processParsed_botText_eq, processParsed_messages_eq]
    rcases h with h | h <;>
      refine ⟨?_, ?_, ?_⟩ <;> simp [stepRC, pageApplyChunk, h]
  · intro t ht hne
    rw [processParsed_botText_eq]
    constructor <;> simp [stepRC, pageApplyChunk, ht, hne]

/-- C10 witness: a concrete empty chunk leaves everything unchanged. -/
theorem empty_chunk_preserves_text_witness :
    (processParsed
        { botMessageText := demoText, messages := [], session := demoState.session,
          isStreamComplete := false }
        { response_chunk := none, is_final := false, session_id := none,
          error := none }).botMessageText = demoText :=
  ((empty_chunk_preserves_text
      { botMessageText := demoText, messages := [], session := demoState.session,
        isStreamComplete := false }
      { response_chunk := none, is_final := false, session_id := none, error := none }
      [] [] 0).1 (Or.inl rfl)).1

/-- C6: when a final chunk arrives and the accumulated text contains a
recognized booking-confirmation phrase, `isBookingConfirmed` is true; the
read loop never resets it; and a subsequent send whose text matches the
reschedule/cancel intent regex resets it to false in the session computed
before the request is issued. -/
theorem booking_confirmed_lifecycle :
    (∀ (acc : StreamAcc) (d : ChunkData), d.is_final = true →
      (containsSub bookingPhrase1 (processParsed acc d).botMessageText ||
        containsSub bookingPhrase2 (processParsed acc d).botMessageText) = true →
      (processParsed acc d).session.isBookingConfirmed = true) ∧
    (∀ (acc : StreamAcc) (l : StreamLine), acc.session.isBookingConfirmed = true →
      (processLine acc l).session.isBookingConfirmed = true) ∧
    (∀ (s : ChatState) (text : List Char), s.session.isBookingConfirmed = true →
      intentTest text = true → (preSendSession s text).isBookingConfirmed = false) := by
  refine ⟨?_, ?_, ?_⟩
  · intro acc d hf hc
    rw [processParsed_botText_eq] at hc
    unfold processParsed
    rw [stepSID_confirmed]
    unfold stepFinal
    rw [if_pos hf]
    simp only []
    rw [if_pos hc]
  · intro acc l h
    cases l with
    | malformed => exact h
    | parsed d =>
      show (processParsed acc d).session.isBookingConfirmed = true
      unfold processParsed
      rw [stepSID_confirmed]
      unfold stepFinal
      split
      · split
        · rfl
        · rw [show (stepRC acc d).session = acc.session from stepRC_session acc d]
          exact h
      · rw [show (stepRC acc d).session = acc.session from stepRC_session acc d]
        exact h
  · intro s text h1 h2
    unfold preSendSession
    rw [if_pos ⟨h1, h2⟩]

/-- C6 witness: a confirming final chunk sets the flag, and a subsequent
reschedule message resets it. -/
theorem booking_confirmed_lifecycle_witness :
    (processParsed
        { botMessageText := [], messages := [], session := demoState.session,
          isStreamComplete := false }
        confirmChunk).session.isBookingConfirmed = true ∧
    (preSendSession
        { demoState with
            session := { demoState.session with isBookingConfirmed := true } }
        ("please reschedule".data)).isBookingConfirmed = false :=
  ⟨booking_confirmed_lifecycle.1
      { botMessageText := [], messages := [], session := demoState.session,
        isStreamComplete := false }
      confirmChunk rfl (by decide),
    booking_confirmed_lifecycle.2.2
      { demoState with
          session := { demoState.session with isBookingConfirmed := true } }
      ("please reschedule".data) rfl (by decide)⟩

theorem split_at_first_uscore (r1 : List Char) :
    ∀ (r0 t1 t0 : List Char), uscore ∉ r1 → uscore ∉ r0 →
      r1 ++ uscore :: t1 = r0 ++ uscore :: t0 → r1 = r0 ∧ t1 = t0 := by
  induction r1 with
  | nil =>
    intro r0 t1 t0 _ h0 he
    cases r0 with
    | nil => simpa using he
    | cons c r0 =>
      rw [List.nil_append, List.cons_append, List.cons_eq_cons] at he
      exact absurd (he.1 ▸ List.mem_cons_self c r0) h0
  | cons c r1 ih =>
    intro r0 t1 t0 h1 h0 he
    cases r0 with
    | nil =>
      rw [List.nil_append, List.cons_append, List.cons_eq_cons] at he
      exact absurd (he.1 ▸ List.mem_cons_self c r1) h1
    | cons d r0 =>
      rw [List.cons_append, List.cons_append, List.cons_eq_cons] at he
      obtain ⟨hc, he⟩ := he
      have hr1 : uscore ∉ r1 := fun hm => h1 (List.mem_cons_of_mem c hm)
      have hr0 : uscore ∉ r0 := fun hm => h0 (List.mem_cons_of_mem d hm)
      obtain ⟨hr, ht⟩ := ih r0 t1 t0 hr1 hr0 he
      exact ⟨by rw [hc, hr], ht⟩

theorem generateSessionId_inj (r1 t1 r0 t0 : List Char)
    (h1 : uscore ∉ r1) (h0 : uscore ∉ r0)
    (he : generateSessionId r1 t1 = generateSessionId r0 t0) :
    r1 = r0 ∧ t1 = t0 := by
  unfold generateSessionId at he
  have he' := @List.append_cancel_left Char ("session".data) _ _ he
  rw [List.cons_eq_cons] at he'
  exact split_at_first_uscore r1 r0 t1 t0 h1 h0 he'.2

/-- C7: `clearChat` installs a session id different from the previous one
(whenever the random component or the clock value differs from those of
the previous id, the entropy assumption behind the generator), resets
`isBookingConfirmed` to false, and leaves the message list holding
exactly the single welcome message once its deferred tail has run. -/
theorem clear_chat_resets (s : ChatState) (r0 t0 r1 t1 : List Char)
    (hsid : s.session.sessionId = generateSessionId r0 t0)
    (h0 : uscore ∉ r0) (h1 : uscore ∉ r1)
    (hfresh : r1 ≠ r0 ∨ t1 ≠ t0) :
    (clearChat s r1 t1).session.sessionId ≠ s.session.sessionId ∧
    (clearChat s r1 t1).session.isBookingConfirmed = false ∧
    (clearChat s r1 t1).messages =
      [{ id := s.nextId, sender := Sender.bot, text := welcomeText, isError := false }] := by
  refine ⟨?_, rfl, rfl⟩
  intro he
  rw [hsid] at he
  obtain ⟨hr, ht⟩ := generateSessionId_inj r1 t1 r0 t0 h1 h0 he
  rcases hfresh with h | h
  exacts [h hr, h ht]

/-- C7 witness: concrete previous and fresh generator inputs. -/
theorem clear_chat_resets_witness :
    (clearChat
        { demoState with
            session := { sessionId := generateSessionId ['a'] ['1'],
                         isBookingConfirmed := true } }
        ['b'] ['2']).session.sessionId ≠
      generateSessionId ['a'] ['1'] ∧
    (clearChat
        { demoState with
            session := { sessionId := generateSessionId ['a'] ['1'],
                         isBookingConfirmed := true } }
        ['b'] ['2']).session.isBookingConfirmed = false :=
  ⟨(clear_chat_resets
      { demoState with
          session := { sessionId := generateSessionId ['a'] ['1'],
                       isBookingConfirmed := true } }
      ['a'] ['1'] ['b'] ['2'] rfl (by decide) (by decide)
      (Or.inl (by decide))).1,
    (clear_chat_resets
      { demoState with
          session := { sessionId := generateSessionId ['a'] ['1'],
                       isBookingConfirmed := true } }
      ['a'] ['1'] ['b'] ['2'] rfl (by decide) (by decide)
      (Or.inl (by decide))).2.1⟩

/-- C1 (code bug): a streamed chunk carrying an `error` field is not
treated as a failure by the code.  On the concrete stream whose first
line is an error chunk, the send appends no error-flagged message and
ends at status `idle` with the stream processed normally, whereas a real
network failure appends exactly one error-flagged message.  The thrown
`Error(data.error)` is caught by the same per-line `catch` that handles
JSON parse errors, so it is logged and skipped. -/
theorem error_chunk_swallowed :
    (sendMessage demoState demoText false
        (TransportResult.stream
          [[StreamLine.parsed errChunk, StreamLine.parsed finChunk]] false)).1.messages.countP
        (fun m => m.isError) = 0 ∧
    (sendMessage demoState demoText false
        (TransportResult.stream
          [[StreamLine.parsed errChunk, StreamLine.parsed finChunk]] false)).1.chatStatus =
      ChatStatus.idle ∧
    (sendMessage demoState demoText false
        TransportResult.networkFailure).1.messages.countP (fun m => m.isError) = 1 := by
  refine ⟨?_, ?_, ?_⟩ <;> decide

theorem indexOfChar_append_of_not_mem (c : Char) (l r : List Char) (h : c ∉ l) :
    indexOfChar c (l ++ r) = (indexOfChar c r).map (· + l.length) := by
  induction l with
  | nil =>
    rw [List.nil_append]
    cases hh : indexOfChar c r <;> simp [hh]
  | cons d l ih =>
    have hd : ¬ d = c := fun hh => h (hh ▸ List.mem_cons_self _ _)
    have ih' := ih (fun hm => h (List.mem_cons_of_mem d hm))
    rw [List.cons_append]
    have e1 : indexOfChar c (d :: (l ++ r)) =
        if d = c then some 0 else (indexOfChar c (l ++ r)).map (· + 1) := rfl
    rw [e1, if_neg hd, ih']
    cases hh : indexOfChar c r <;> simp [hh, Nat.add_assoc]

theorem braceEnd_extend (l r : List Char) :
    ∀ (d : Int) (k n : Nat), braceEnd l d k = some n → braceEnd (l ++ r) d k = some n := by
  induction l with
  | nil =>
    intro d k n h
    exact absurd h (by simp [braceEnd])
  | cons c l ih =>
    intro d k n h
    rw [List.cons_append]
    unfold braceEnd at h ⊢
    by_cases h1 : c = lbrace
    · rw [if_pos h1] at h ⊢
      exact ih _ _ _ h
    · rw [if_neg h1] at h ⊢
      by_cases h2 : c = rbrace
      · rw [if_pos h2] at h ⊢
        by_cases h3 : d = 1
        · rw [if_pos h3] at h ⊢
          exact h
        · rw [if_neg h3] at h ⊢
          exact ih _ _ _ h
      · rw [if_neg h2] at h ⊢
        exact ih _ _ _ h

theorem stripCompleteTag_of_none (tag s : List Char)
    (h : indexOfSub tag s = none) : stripCompleteTag tag s = s := by
  unfold stripCompleteTag
  rw [h]

theorem stripCompleteTag_structured (tag pre j post : List Char)
    (hnb : lbrace ∉ tag)
    (h1 : indexOfSub tag (pre ++ tag ++ j ++ post) = some pre.length)
    (h2 : ∃ j', j = lbrace :: j')
    (h3 : braceEnd j 0 0 = some j.length) :
    stripCompleteTag tag (pre ++ tag ++ j ++ post) =
      trimStr (trimStr pre ++ ' ' :: trimStr post) := by
  obtain ⟨j', hj⟩ := h2
  have hassoc : pre ++ tag ++ j ++ post = pre ++ (tag ++ (j ++ post)) := by
    simp [List.append_assoc]
  have htake : (pre ++ tag ++ j ++ post).take pre.length = pre := by
    rw [hassoc]
    exact List.take_left _ _
  have hdrop : (pre ++ tag ++ j ++ post).drop pre.length = tag ++ (j ++ post) := by
    rw [hassoc]
    exact List.drop_left _ _
  have hioc : (indexOfChar lbrace (tag ++ (j ++ post))).map (· + pre.length) =
      some (tag.length + pre.length) := by
    rw [indexOfChar_append_of_not_mem lbrace tag (j ++ post) hnb, hj]
    simp [indexOfChar]
  have hdrop2 : (pre ++ tag ++ j ++ post).drop (tag.length + pre.length) = j ++ post := by
    rw [List.append_assoc (pre ++ tag) j post]
    refine List.drop_left' ?_
    rw [List.length_append]
    omega
  have hbe : braceEnd (j ++ post) 0 0 = some j.length :=
    braceEnd_extend j post 0 0 j.length h3
  have hdrop3 : (pre ++ tag ++ j ++ post).drop (tag.length + pre.length + j.length) =
      post := by
    refine List.drop_left' ?_
    rw [List.length_append, List.length_append]
    omega
  unfold stripCompleteTag
  rw [h1]
  simp only [htake, hdrop, hioc, hdrop2, hbe, hdrop3]

/-- C4: a bot text of the form `pre ++ BOOKING_COMPLETE: ++ json ++ post`
with a balanced-brace JSON blob renders as the trimmed pre-text joined
with the trimmed post-text, the tag and JSON removed; in particular the
example text renders as `thanks!`. -/
theorem booking_tag_stripping :
    (∀ pre j post : List Char,
      indexOfSub bkTag (pre ++ bkTag ++ j ++ post) = some pre.length →
      (∃ j', j = lbrace :: j') →
      braceEnd j 0 0 = some j.length →
      indexOfSub upTag (trimStr (trimStr pre ++ ' ' :: trimStr post)) = none →
      renderStrip (pre ++ bkTag ++ j ++ post) =
        trimStr (trimStr pre ++ ' ' :: trimStr post)) ∧
    renderStrip bkExample = "thanks!".data := by
  constructor
  · intro pre j post h1 h2 h3 h4
    unfold renderStrip
    rw [stripCompleteTag_structured bkTag pre j post (by decide) h1 h2 h3]
    exact stripCompleteTag_of_none upTag _ h4
  · decide

/-- C4 witness: concrete instance of the general stripping statement. -/
theorem booking_tag_stripping_witness :
    renderStrip (("Done. ").data ++ bkTag ++ (lbrace :: [rbrace]) ++ (" ok").data) =
      trimStr (trimStr (("Done. ").data) ++ ' ' :: trimStr ((" ok").data)) :=
  booking_tag_stripping.1 (("Done. ").data) (lbrace :: [rbrace]) ((" ok").data)
    (by decide) ⟨[rbrace], rfl⟩ (by decide) (by decide)

theorem skipWS_nonws (c : Char) (r : List Char) (h : isJsonWS c = false) :
    skipWS (c :: r) = c :: r := by
  simp [skipWS, List.dropWhile_cons, h]

theorem scanStr_encoded (x : List Char) (rest : List Char)
    (hq : dquote ∉ x) (hb : bslash ∉ x) (hc : ∀ c ∈ x, 32 ≤ c.toNat) :
    scanStr (x ++ dquote :: rest) = some (x, rest) := by
  induction x with
  | nil =>
    simp [scanStr]
  | cons c x ih =>
    have h1 : ¬ c = dquote := fun h => hq (h ▸ List.mem_cons_self _ _)
    have h2 : ¬ c = bslash := fun h => hb (h ▸ List.mem_cons_self _ _)
    have h3 : ¬ c.toNat < 32 := by
      have := hc c (List.mem_cons_self _ _)
      omega
    have ih' := ih (fun hm => hq (List.mem_cons_of_mem c hm))
      (fun hm => hb (List.mem_cons_of_mem c hm))
      (fun d hd => hc d (List.mem_cons_of_mem c hd))
    rw [List.cons_append]
    have e1 : scanStr (c :: (x ++ dquote :: rest)) =
        if c = dquote then some ([], x ++ dquote :: rest)
        else if c = bslash then none
        else if c.toNat < 32 then none
        else (scanStr (x ++ dquote :: rest)).map (fun p => (c :: p.1, p.2)) := rfl
    rw [e1, if_neg h1, if_neg h2, if_neg h3, ih']
    rfl

theorem normalizeQuotes_id (x : List Char) (h : squote ∉ x) :
    normalizeQuotes x = x := by
  induction x with
  | nil => rfl
  | cons c x ih =>
    have hc : ¬ c = squote := fun hh => h (hh ▸ List.mem_cons_self _ _)
    unfold normalizeQuotes
    rw [List.map_cons]
    rw [if_neg hc]
    have := ih (fun hm => h (List.mem_cons_of_mem c hm))
    unfold normalizeQuotes at this
    rw [this]

theorem normalizeQuotes_append (a b : List Char) :
    normalizeQuotes (a ++ b) = normalizeQuotes a ++ normalizeQuotes b := by
  unfold normalizeQuotes
  rw [List.map_append]

theorem normalizeQuotes_quoteList (items : List (List Char))
    (h : ∀ i ∈ items, squote ∉ i) :
    normalizeQuotes (quoteList items) = dquoteList items := by
  induction items with
  | nil => rfl
  | cons x it ih =>
    cases it with
    | nil =>
      show normalizeQuotes (squote :: x ++ [squote]) = dquote :: x ++ [dquote]
      rw [List.cons_append, show normalizeQuotes (squote :: (x ++ [squote])) =
          dquote :: normalizeQuotes (x ++ [squote]) from by simp [normalizeQuotes]]
      rw [normalizeQuotes_append, normalizeQuotes_id x (h x (List.mem_cons_self _ _))]
      simp [normalizeQuotes]
    | cons y rest =>
      show normalizeQuotes (squote :: x ++ squote :: ',' :: quoteList (y :: rest)) =
        dquote :: x ++ dquote :: ',' :: dquoteList (y :: rest)
      rw [List.cons_append, show normalizeQuotes (squote :: (x ++ squote :: ',' :: quoteList (y :: rest))) =
          dquote :: normalizeQuotes (x ++ squote :: ',' :: quoteList (y :: rest)) from by
            simp [normalizeQuotes]]
      rw [normalizeQuotes_append, normalizeQuotes_id x (h x (List.mem_cons_self _ _))]
      have ih' := ih (fun i hi => h i (List.mem_cons_of_mem x hi))
      rw [show normalizeQuotes (squote :: ',' :: quoteList (y :: rest)) =
          dquote :: ',' :: normalizeQuotes (quoteList (y :: rest)) from by
            simp [normalizeQuotes]
            decide]
      rw [ih']
      rfl

theorem dquoteList_length_ge (items : List (List Char)) :
    items.length ≤ (dquoteList items).length := by
  induction items with
  | nil => simp [dquoteList]
  | cons x it ih =>
    cases it with
    | nil => simp [dquoteList]
    | cons y rest =>
      show (x :: y :: rest : List (List Char)).length ≤
        (dquote :: x ++ dquote :: ',' :: dquoteList (y :: rest)).length
      simp only [List.length_cons, List.cons_append, List.length_append] at ih ⊢
      omega

theorem parseItemsAux_encoded :
    ∀ (items : List (List Char)) (fuel : Nat), items ≠ [] →
      (∀ i ∈ items, dquote ∉ i ∧ bslash ∉ i ∧ ∀ c ∈ i, 32 ≤ c.toNat) →
      items.length ≤ fuel →
      parseItemsAux fuel (dquoteList items ++ [']']) = some items := by
  intro items
  induction items with
  | nil =>
    intro fuel h
    exact absurd rfl h
  | cons x it ih =>
    intro fuel _ hcond hlen
    cases fuel with
    | zero => simp at hlen
    | succ f =>
      obtain ⟨hqx, hbx, hcx⟩ := hcond x (List.mem_cons_self _ _)
      cases it with
      | nil =>
        have hform : dquoteList [x] ++ [']'] = dquote :: (x ++ dquote :: [']']) := by
          show (dquote :: x ++ [dquote]) ++ [']'] = _
          simp [List.cons_append, List.append_assoc]
        rw [hform]
        unfold parseItemsAux
        rw [skipWS_nonws dquote _ (by decide)]
        rw [show parseStringLit (dquote :: (x ++ dquote :: [']'])) =
            scanStr (x ++ dquote :: [']']) from by simp [parseStringLit]]
        rw [scanStr_encoded x _ hqx hbx hcx]
        dsimp only []
        rw [skipWS_nonws ']' _ (by decide)]
        dsimp only []
        rw [if_pos rfl]
        rw [if_pos (show skipWS [] = [] from rfl)]
      | cons y rest =>
        have hform : dquoteList (x :: y :: rest) ++ [']'] =
            dquote :: (x ++ dquote :: ',' :: (dquoteList (y :: rest) ++ [']'])) := by
          show (dquote :: x ++ dquote :: ',' :: dquoteList (y :: rest)) ++ [']'] = _
          simp [List.cons_append, List.append_assoc]
        rw [hform]
        unfold parseItemsAux
        rw [skipWS_nonws dquote _ (by decide)]
        rw [show parseStringLit (dquote ::
              (x ++ dquote :: ',' :: (dquoteList (y :: rest) ++ [']']))) =
            scanStr (x ++ dquote :: ',' :: (dquoteList (y :: rest) ++ [']'])) from by
          simp [parseStringLit]]
        rw [scanStr_encoded x _ hqx hbx hcx]
        dsimp only []
        rw [skipWS_nonws ',' _ (by decide)]
        dsimp only []
        rw [if_neg (show ¬ (',' = ']') from by decide), if_pos rfl]
        have hih := ih f (by simp)
          (fun i hi => hcond i (List.mem_cons_of_mem x hi))
          (by simp only [List.length_cons] at hlen ⊢; omega)
        rw [hih]
        rfl

theorem dquoteList_head (items : List (List Char)) (h : items ≠ []) :
    ∃ z, dquoteList items = dquote :: z := by
  cases items with
  | nil => exact absurd rfl h
  | cons x it =>
    cases it with
    | nil => exact ⟨x ++ [dquote], rfl⟩
    | cons y rest => exact ⟨x ++ dquote :: ',' :: dquoteList (y :: rest), rfl⟩

theorem parseStringArray_encoded (items : List (List Char)) (hne : items ≠ [])
    (hcond : ∀ i ∈ items, dquote ∉ i ∧ bslash ∉ i ∧ ∀ c ∈ i, 32 ≤ c.toNat) :
    parseStringArray ('[' :: (dquoteList items ++ [']'])) = some items := by
  obtain ⟨z, hz⟩ := dquoteList_head items hne
  have hz' : dquoteList items ++ [']'] = dquote :: (z ++ [']']) := by
    rw [hz, List.cons_append]
  unfold parseStringArray
  rw [skipWS_nonws '[' _ (by decide)]
  dsimp only []
  rw [if_pos rfl, hz']
  rw [skipWS_nonws dquote _ (by decide)]
  dsimp only []
  rw [if_neg (show ¬ (dquote = ']') from by decide)]
  rw [← hz']
  refine parseItemsAux_encoded items _ hne hcond ?_
  have := dquoteList_length_ge items
  rw [List.length_append]
  simp only [List.length_cons, List.length_nil]
  omega

/-- C5: a bot text containing the `TIME_SLOTS_DISPLAY:[...]` marker with a
single-quoted list of plain items parses to the corresponding string
array, with the whole marker removed from the rendered text; in
particular the marker listing `10am` and `2pm` yields exactly that array
and nothing remains of the marker in the rendered text. -/
theorem time_slots_parsing :
    (∀ (before after : List Char) (items : List (List Char)),
      items ≠ [] →
      (∀ i ∈ items, plainItem i) →
      tsScan (before ++ tsMarker ++ quoteList items ++ [']'] ++ after) =
        some (before, quoteList items, after) →
      indexOfSub (tsMarker ++ quoteList items ++ [']'])
          (before ++ tsMarker ++ quoteList items ++ [']'] ++ after) =
        some before.length →
      extractTimeSlots (before ++ tsMarker ++ quoteList items ++ [']'] ++ after) =
        (items, trimStr (before ++ after))) ∧
    extractTimeSlots tsExample = ([("10am").data, ("2pm").data], []) := by
  constructor
  · intro before after items hne hplain hscan hidx
    have hcond : ∀ i ∈ items, dquote ∉ i ∧ bslash ∉ i ∧ ∀ c ∈ i, 32 ≤ c.toNat :=
      fun i hi => ⟨(hplain i hi).2.1, (hplain i hi).2.2.1, (hplain i hi).2.2.2.2.2⟩
    have hsq : ∀ i ∈ items, squote ∉ i := fun i hi => (hplain i hi).1
    unfold extractTimeSlots
    rw [hscan]
    dsimp only []
    rw [normalizeQuotes_quoteList items hsq]
    rw [show ('[' : Char) :: dquoteList items ++ [']'] =
        '[' :: (dquoteList items ++ [']']) from by rw [List.cons_append]]
    rw [parseStringArray_encoded items hne hcond]
    dsimp only []
    have htake : (before ++ tsMarker ++ quoteList items ++ [']'] ++ after).take
        before.length = before := by
      rw [show before ++ tsMarker ++ quoteList items ++ [']'] ++ after =
          before ++ (tsMarker ++ (quoteList items ++ ([']'] ++ after))) from by
        simp [List.append_assoc]]
      exact List.take_left _ _
    have hdropN : (before ++ tsMarker ++ quoteList items ++ [']'] ++ after).drop
        (before.length + (tsMarker ++ quoteList items ++ [']']).length) = after := by
      rw [show before ++ tsMarker ++ quoteList items ++ [']'] ++ after =
          (before ++ (tsMarker ++ quoteList items ++ [']'])) ++ after from by
        simp [List.append_assoc]]
      refine List.drop_left' ?_
      simp [List.length_append]
    have hrf : replaceFirst (tsMarker ++ quoteList items ++ [']']) []
        (before ++ tsMarker ++ quoteList items ++ [']'] ++ after) = before ++ after := by
      unfold replaceFirst
      rw [hidx]
      dsimp only []
      rw [htake, hdropN]
      simp
    rw [hrf]
  · decide

/-- C5 witness: concrete instance of the general parsing statement. -/
theorem time_slots_parsing_witness :
    extractTimeSlots (['P'] ++ tsMarker ++ quoteList [['a'], ['b']] ++ [']'] ++ []) =
      ([['a'], ['b']], trimStr (['P'] ++ [])) :=
  time_slots_parsing.1 ['P'] [] [['a'], ['b']] (by decide) (by decide)
    (by decide) (by decide)

theorem gUpdateLast_length (ms : List GMsg) (t : List Char) :
    (gUpdateLast ms t).length = ms.length := by
  unfold gUpdateLast
  cases hl : ms.getLast? with
  | none => rfl
  | some m =>
    dsimp only []
    by_cases hb : m.sender = Sender.bot
    · rw [if_pos hb]
      conv_rhs => rw [← List.dropLast_append_getLast? m hl]
      simp [List.length_append]
    · rw [if_neg hb]

theorem gUpdateLast_take (ms : List GMsg) (t : List Char) :
    (gUpdateLast ms t).take (ms.length - 1) = ms.take (ms.length - 1) := by
  unfold gUpdateLast
  cases hl : ms.getLast? with
  | none => rfl
  | some m =>
    dsimp only []
    by_cases hb : m.sender = Sender.bot
    · rw [if_pos hb]
      have hms : ms.dropLast ++ [m] = ms := List.dropLast_append_getLast? m hl
      have hlen : ms.dropLast.length = ms.length - 1 := List.length_dropLast ms
      conv_rhs => rw [← hms]
      rw [← hlen, List.take_left]
      rw [show (ms.dropLast ++ [m]).length - 1 = ms.dropLast.length from by simp]
      rw [List.take_left]
    · rw [if_neg hb]

theorem TInv_init : TInv initTState := by
  refine ⟨?_, ?_, ?_, ?_, ?_, ?_, ?_⟩ <;> simp [initTState, TState.live, TInv]

theorem TInv_preserved {s s' : TState} {e : Ev} (hinv : TInv s)
    (hstep : TStep s e s') : TInv s' := by
  obtain ⟨h1, h2, h3, h4, h5, h6, h7⟩ := hinv
  cases hstep with
  | sendStart txt htxt hst hdr =>
    have hnolive : ∀ g, ¬ s.live g := fun g hl => hst (h2 g hl).2.1
    have href : s.refCtrl = none := by
      cases hrc : s.refCtrl with
      | none => rfl
      | some r =>
        obtain ⟨hrs, hrf⟩ := h1 r hrc
        by_cases hab : r ∈ s.aborted
        · exact absurd (hdr r hab) hrf
        · exact absurd (h2 r ⟨hrs, hab, hrf⟩).2.1 hst
    have habort : abortRef s = s := by
      unfold abortRef
      rw [href]
    rw [habort]
    have hcnotst : s.counter ∉ s.started := fun hm => by
      have := h4 s.counter hm
      omega
    refine ⟨?_, ?_, ?_, ?_, ?_, ?_, ?_⟩
    · intro g hg
      have hg' : g = s.counter := (Option.some.inj hg).symm
      subst hg'
      exact ⟨List.mem_cons_self _ _, fun hm => hcnotst (h7 _ hm)⟩
    · intro g hl
      obtain ⟨hgs, hga, hgf⟩ := hl
      rcases List.mem_cons.mp hgs with hge | hgs'
      · subst hge
        refine ⟨rfl, rfl, ?_⟩
        intro x hx
        rcases List.mem_cons.mp hx with hxe | hxs
        · subst hxe
          exact Nat.le_refl _
        · exact Nat.le_of_lt (h4 x hxs)
      · exact absurd ⟨hgs', hga, hgf⟩ (hnolive g)
    · intro h hh hf
      exact absurd (hdr h hh) hf
    · intro g hg
      rcases List.mem_cons.mp hg with hge | hgs
      · subst hge
        exact Nat.lt_succ_self _
      · exact Nat.lt_succ_of_lt (h4 g hgs)
    · intro g hg
      exact List.mem_cons_of_mem _ (h5 g hg)
    · intro g hg
      exact List.mem_cons_of_mem _ (h6 g hg)
    · intro g hg
      exact List.mem_cons_of_mem _ (h7 g hg)
  | streamBegin g hgs hga hgb hgf hdr =>
    refine ⟨h1, h2, h3, h4, h5, ?_, h7⟩
    intro x hx
    rcases List.mem_cons.mp hx with he | hx'
    · exact he ▸ hgs
    · exact h6 x hx'
  | chunk g t hgb hga hgf hdr =>
    exact ⟨h1, h2, h3, h4, h5, h6, h7⟩
  | finishOk g hgb hga hgf hdr =>
    have hlg : s.live g := ⟨h6 g hgb, hga, hgf⟩
    have huniq : ∀ x, s.live x → x = g := fun x hx => by
      have e1 := (h2 x hx).1
      have e2 := (h2 g hlg).1
      exact Option.some.inj (e1.symm.trans e2)
    have hnolive' : ∀ x, ¬ (x ∈ s.started ∧ x ∉ s.aborted ∧ x ∉ g :: s.finished) := by
      intro x hx
      obtain ⟨hxs, hxa, hxf⟩ := hx
      have hxg : x ≠ g := fun he => hxf (he ▸ List.mem_cons_self _ _)
      exact hxg (huniq x ⟨hxs, hxa, fun hm => hxf (List.mem_cons_of_mem _ hm)⟩)
    refine ⟨?_, ?_, ?_, h4, h5, h6, ?_⟩
    · intro x hx
      exact absurd hx (by simp)
    · intro x hx
      exact absurd hx (hnolive' x)
    · intro h hh hf x hx
      exact hnolive' x hx
    · intro x hx
      rcases List.mem_cons.mp hx with he | hx'
      · exact he ▸ h6 g hgb
      · exact h7 x hx'
  | finishAbort g hgs hga hgf =>
    have hnolive : ∀ x, ¬ s.live x := h3 g hga hgf
    have hnolive' : ∀ x, ¬ (x ∈ s.started ∧ x ∉ s.aborted ∧ x ∉ g :: s.finished) := by
      intro x hx
      obtain ⟨hxs, hxa, hxf⟩ := hx
      exact hnolive x ⟨hxs, hxa, fun hm => hxf (List.mem_cons_of_mem _ hm)⟩
    refine ⟨?_, ?_, ?_, h4, h5, h6, ?_⟩
    · intro x hx
      exact absurd hx (by simp)
    · intro x hx
      exact absurd hx (hnolive' x)
    · intro h hh hf x hx
      exact hnolive' x hx
    · intro x hx
      rcases List.mem_cons.mp hx with he | hx'
      · exact he ▸ hgs
      · exact h7 x hx'
  | clearChat hdr =>
    cases hrc : s.refCtrl with
    | none =>
      have habort : abortRef s = s := by
        unfold abortRef
        rw [hrc]
      rw [habort]
      refine ⟨h1, ?_, ?_, h4, h5, h6, h7⟩
      · intro x hx
        have := (h2 x hx).1
        rw [hrc] at this
        exact absurd this (by simp)
      · intro h hh hf x hx
        exact absurd (hdr h hh) hf
    | some r =>
      have habort : abortRef s = { s with aborted := r :: s.aborted } := by
        unfold abortRef
        rw [hrc]
      rw [habort]
      have hnolive' : ∀ x, ¬ (x ∈ s.started ∧ x ∉ r :: s.aborted ∧ x ∉ s.finished) := by
        intro x hx
        obtain ⟨hxs, hxa, hxf⟩ := hx
        have hxr : x ≠ r := fun he => hxa (he ▸ List.mem_cons_self _ _)
        have hxa' : x ∉ s.aborted := fun hm => hxa (List.mem_cons_of_mem _ hm)
        have hxref := (h2 x ⟨hxs, hxa', hxf⟩).1
        rw [hrc] at hxref
        exact hxr (Option.some.inj hxref).symm
      refine ⟨?_, ?_, ?_, h4, ?_, h6, h7⟩
      · intro x hx
        exact h1 x hx
      · intro x hx
        exact absurd hx (hnolive' x)
      · intro h hh hf x hx
        exact hnolive' x hx
      · intro x hx
        rcases List.mem_cons.mp hx with he | hx'
        · exact he ▸ (h1 r hrc).1
        · exact h5 x hx'
  | welcomeTimeout hdr =>
    exact ⟨h1, h2, h3, h4, h5, h6, h7⟩

theorem TInv_reachable {s : TState} (h : TReach s) : TInv s := by
  induction h with
  | init => exact TInv_init
  | step e hr hst ih => exact TInv_preserved ih hst

/-- C2: in every reachable trace state, starting a new send leaves every
previously started, unfinished request aborted; and a chunk can only be
delivered for a generation that is not aborted, is the unique in-flight
generation, and dominates every started generation (so a superseded
request, being aborted, never delivers a chunk and never mutates the new
trailing bot message), and its delivery rewrites at most the trailing
message of the list. -/
theorem send_abort_discipline :
    (∀ (s s' : TState) (txt : List Char), TReach s → TStep s (Ev.sendStart txt) s' →
      ∀ h ∈ s.started, h ∉ s.finished → h ∈ s'.aborted) ∧
    (∀ (s s' : TState) (g : Nat) (t : List Char), TReach s → TStep s (Ev.chunk g t) s' →
      g ∉ s.aborted ∧
      (∀ x, s.live x → x = g) ∧
      (∀ x ∈ s.started, x ≤ g) ∧
      s'.messages.length = s.messages.length ∧
      s'.messages.take (s.messages.length - 1) =
        s.messages.take (s.messages.length - 1)) := by
  constructor
  · intro s s' txt hr hstep
    obtain ⟨h1, h2, _, _, _, _, h7⟩ := TInv_reachable hr
    intro h hh hf
    cases hstep with
    | sendStart txt htxt hst hdr =>
      by_cases hab : h ∈ s.aborted
      · show h ∈ (abortRef s).aborted
        unfold abortRef
        cases s.refCtrl with
        | none => exact hab
        | some r => exact List.mem_cons_of_mem _ hab
      · exact absurd (h2 h ⟨hh, hab, hf⟩).2.1 hst
  · intro s s' g t hr hstep
    obtain ⟨h1, h2, _, _, _, h6, _⟩ := TInv_reachable hr
    cases hstep with
    | chunk g t hgb hga hgf hdr =>
      have hlg : s.live g := ⟨h6 g hgb, hga, hgf⟩
      have huniq : ∀ x, s.live x → x = g := fun x hx =>
        Option.some.inj (((h2 x hx).1).symm.trans ((h2 g hlg).1))
      exact ⟨hga, huniq, (h2 g hlg).2.2,
        gUpdateLast_length s.messages t, gUpdateLast_take s.messages t⟩

/-- C2 witness: concrete two-step reachable state with a chunk delivery. -/
theorem send_abort_discipline_witness :
    0 ∉ demoT2.aborted ∧
    (∀ x, demoT2.live x → x = 0) ∧
    (∀ x ∈ demoT2.started, x ≤ 0) ∧
    ({ demoT2 with
        messages := gUpdateLast demoT2.messages (("ok").data) } : TState).messages.length =
      demoT2.messages.length ∧
    ({ demoT2 with
        messages := gUpdateLast demoT2.messages (("ok").data) } : TState).messages.take
        (demoT2.messages.length - 1) =
      demoT2.messages.take (demoT2.messages.length - 1) := by
  have h0 : TReach initTState := TReach.init
  have h1 : TReach demoT1 :=
    TReach.step (Ev.sendStart demoText) h0
      (TStep.sendStart initTState demoText (by decide) (by decide) (by decide))
  have h2 : TReach demoT2 :=
    TReach.step (Ev.streamBegin 0) h1
      (TStep.streamBegin demoT1 0 (by decide) (by decide) (by decide) (by decide)
        (by decide))
  exact send_abort_discipline.2 demoT2 _ 0 (("ok").data) h2
    (TStep.chunk demoT2 0 (("ok").data) (by decide) (by decide) (by decide) (by decide))

end FuzzyChat
